import Mathlib

/-!
Verification of the libai terminal chat client (src/main.c and
src/third-party/md4c_ansi.c) against its natural-language specification.

The development shallowly embeds the relevant C functions as executable
Lean definitions over lists of Unicode codepoints (for the UTF-8 walking
code in main.c) and lists of bytes-as-Char (for the ASCII lexer in
md4c_ansi.c), and proves or refutes each claim of the specification.
-/

namespace Wrap

/-- Embedding of is_word_boundary (src/main.c, lines 1183-1192): the set of
codepoints treated as preferred wrap points.  Codepoints are plain naturals. -/
def is_word_boundary (c : Nat) : Bool :=
  c = 32 || c = 9 || c = 10 || c = 13 || c = 46 || c = 44 ||
  c = 59 || c = 58 || c = 33 || c = 63 || c = 45 || c = 95 ||
  c = 40 || c = 41 || c = 91 || c = 93 || c = 123 || c = 125 ||
  c = 34 || c = 39 || c = 47 || c = 92 || c = 124

/-- Number of bytes of the UTF-8 encoding of a codepoint; this is the
byte_len that tb_utf8_char_to_unicode reports for a valid encoded codepoint.
The wrapper compares a byte distance against max_width / 3, so byte counts
matter even though the scan counts codepoints. -/
def utf8Len (c : Nat) : Nat :=
  if c < 128 then 1 else if c < 2048 then 2 else if c < 65536 then 3 else 4

/-- Embedding of the inner scan loop of wrap_text_to_lines (src/main.c,
lines 1234-1252).  Arguments: target width w, remaining codepoints, the
running chars_count and byte offset from line_start, and the last word
boundary seen as (codepoint count past the boundary, byte offset past the
boundary).  Returns the scanned codepoints, the final last_break, and the
unscanned remainder.  The loop stops at end of text, at a newline, or once
chars_count reaches max_width. -/
def scanLine (w : Nat) : List Nat → Nat → Nat → Option (Nat × Nat) →
    List Nat × Option (Nat × Nat) × List Nat
  | [], _, _, lb => ([], lb, [])
  | c :: rest, chars, bytes, lb =>
    if c = 10 ∨ w ≤ chars then ([], lb, c :: rest)
    else
      let bl := utf8Len c
      let lb2 := if is_word_boundary c then some (chars + 1, bytes + bl) else lb
      let r := scanLine w rest (chars + 1) (bytes + bl) lb2
      (c :: r.1, r.2.1, r.2.2)

/-- Embedding of the post-break whitespace skip of wrap_text_to_lines
(src/main.c, lines 1264-1266): after a soft break the wrapper consumes
following spaces and tabs (codepoints 32 and 9) before starting the next
line. -/
def skipSp : List Nat → List Nat
  | [] => []
  | c :: rest => if c = 32 ∨ c = 9 then skipSp rest else c :: rest

/-- Embedding of the outer loop of wrap_text_to_lines (src/main.c, lines
1209-1322), with fuel for termination; every iteration consumes at least one
codepoint, so fuel equal to the length of the text is sufficient.  A newline
emits an empty line; otherwise the scanned prefix is emitted whole (when the
scan stopped early, at end of text, or at a newline), or split at the last
word boundary when that boundary lies at a byte offset of at least
max_width / 3 (the byte offsets of last_break and line_start), or hard-split
at the scan position.  All allocations are assumed to succeed.  The C branch
for scan_ptr <= line_start is unreachable here because the clamped width is
at least 5, so a nonempty line always scans at least one codepoint. -/
def wrapGo (w : Nat) : Nat → List Nat → List (List Nat)
  | 0, _ => []
  | _, [] => []
  | fuel + 1, c :: cs =>
    if c = 10 then [] :: wrapGo w fuel cs
    else
      let s := scanLine w (c :: cs) 0 0 none
      let taken := s.1
      let lb := s.2.1
      let rest := s.2.2
      if taken.length < w ∨ rest = [] ∨ rest.head? = some 10 then
        taken :: wrapGo w fuel rest
      else
        match lb with
        | some bp =>
          if 0 < bp.2 ∧ w / 3 ≤ bp.2 then
            (taken.take bp.1) :: wrapGo w fuel (skipSp (taken.drop bp.1 ++ rest))
          else
            taken :: wrapGo w fuel rest
        | none => taken :: wrapGo w fuel rest

/-- Embedding of wrap_text_to_lines (src/main.c, lines 1194-1327).  The text
is the list of decoded codepoints.  A zero width returns no lines (the
max_width <= 0 early return); otherwise the width is silently raised to at
least 5 before wrapping, and an empty result is replaced by one empty
line. -/
def wrap_text_to_lines (text : List Nat) (max_width : Nat) : List (List Nat) :=
  if max_width = 0 then []
  else
    let w := if max_width < 5 then 5 else max_width
    let ls := wrapGo w (text.length + 1) text
    if ls = [] then [[]] else ls

theorem scanLine_taken_length_le (w : Nat) :
    ∀ (cs : List Nat) (chars bytes : Nat) (lb : Option (Nat × Nat)),
      (scanLine w cs chars bytes lb).1.length + chars ≤ max chars w := by
  intro cs
  induction cs with
  | nil => intro chars bytes lb; simp [scanLine]
  | cons c rest ih =>
    intro chars bytes lb
    by_cases h : c = 10 ∨ w ≤ chars
    · simp [scanLine, h]
    · have hcw : chars < w := by
        rcases Nat.lt_or_ge chars w with h1 | h1
        · exact h1
        · exact absurd (Or.inr h1) h
      simp only [scanLine, if_neg h, List.length_cons]
      have := ih (chars + 1) (bytes + utf8Len c)
        (if is_word_boundary c then some (chars + 1, bytes + utf8Len c) else lb)
      omega

theorem scanLine_take_le_w (w : Nat) (cs : List Nat) :
    (scanLine w cs 0 0 none).1.length ≤ w := by
  have := scanLine_taken_length_le w cs 0 0 none
  omega

theorem wrapGo_line_length_le (w : Nat) :
    ∀ (fuel : Nat) (cs : List Nat) (l : List Nat),
      l ∈ wrapGo w fuel cs → l.length ≤ w := by
  intro fuel
  induction fuel with
  | zero => intro cs l h; simp [wrapGo] at h
  | succ fuel ih =>
    intro cs l h
    match cs with
    | [] => simp [wrapGo] at h
    | c :: cs' =>
      by_cases hnl : c = 10
      · simp only [wrapGo, if_pos hnl, List.mem_cons] at h
        rcases h with h | h
        · simp [h]
        · exact ih _ _ h
      · simp only [wrapGo, if_neg hnl] at h
        set s := scanLine w (c :: cs') 0 0 none with hs
        have htk : s.1.length ≤ w := scanLine_take_le_w w (c :: cs')
        by_cases h1 : s.1.length < w ∨ s.2.2 = [] ∨ s.2.2.head? = some 10
        · simp only [if_pos h1, List.mem_cons] at h
          rcases h with h | h
          · exact h ▸ htk
          · exact ih _ _ h
        · simp only [if_neg h1] at h
          match hlb : s.2.1 with
          | some bp =>
            simp only [hlb] at h
            by_cases h2 : 0 < bp.2 ∧ w / 3 ≤ bp.2
            · simp only [if_pos h2, List.mem_cons] at h
              rcases h with h | h
              · subst h
                calc (s.1.take bp.1).length ≤ s.1.length := by
                      simp [List.length_take]
                  _ ≤ w := htk
              · exact ih _ _ h
            · simp only [if_neg h2, List.mem_cons] at h
              rcases h with h | h
              · exact h ▸ htk
              · exact ih _ _ h
          | none =>
            simp only [hlb, List.mem_cons] at h
            rcases h with h | h
            · exact h ▸ htk
            · exact ih _ _ h

/-- Claim C5 fails as stated: with requested width 1 and input text
"abcde", the wrapper emits the single line "abcde" of five visible
codepoints, exceeding the requested width of 1 (the width is silently
clamped to 5 before wrapping). -/
theorem C5_counterexample :
    wrap_text_to_lines [97, 98, 99, 100, 101] 1 = [[97, 98, 99, 100, 101]] ∧
      ¬ ([97, 98, 99, 100, 101] : List Nat).length ≤ 1 := by
  constructor
  · rfl
  · decide

/-- Claim C5, amended: for every input text and every target width W >= 1,
no line emitted by wrap_text_to_lines has more than max W 5 codepoints;
equivalently the bound W of the original claim holds for all W >= 5 and
degrades to 5 below that because the width is clamped to 5. -/
theorem C5_wrap_lines_bounded (text : List Nat) (w : Nat) (l : List Nat)
    (hl : l ∈ wrap_text_to_lines text w) : l.length ≤ max w 5 := by
  unfold wrap_text_to_lines at hl
  by_cases h0 : w = 0
  · simp [h0] at hl
  · simp only [if_neg h0] at hl
    set w2 := if w < 5 then 5 else w with hw2
    have hw2le : w2 ≤ max w 5 := by
      simp only [hw2]
      split <;> omega
    by_cases he : wrapGo w2 (text.length + 1) text = []
    · simp only [he, if_pos] at hl
      simp at hl
      simp [hl]
    · simp only [if_neg he] at hl
      exact le_trans (wrapGo_line_length_le w2 _ _ _ hl) hw2le

/-- Witness for C5_wrap_lines_bounded at a concrete input. -/
theorem C5_wrap_lines_bounded_witness :
    [97, 98, 99, 100, 101] ∈ wrap_text_to_lines [97, 98, 99, 100, 101] 1 ∧
      ([97, 98, 99, 100, 101] : List Nat).length ≤ max 1 5 :=
  ⟨by decide,
   C5_wrap_lines_bounded [97, 98, 99, 100, 101] 1 [97, 98, 99, 100, 101]
     (by decide)⟩

/-- Claim C10: for every input text and every requested width w with
1 <= w <= 4, wrap_text_to_lines returns exactly the lines it returns for
width 5, because any requested width below 5 is silently raised to 5; as a
consequence its output lines can contain up to 5 visible codepoints even
when the requested width is smaller. -/
theorem C10_wrap_clamps_small_widths (text : List Nat) (w : Nat)
    (h1 : 1 ≤ w) (h4 : w ≤ 4) :
    wrap_text_to_lines text w = wrap_text_to_lines text 5 ∧
      ∃ l, l ∈ wrap_text_to_lines [97, 98, 99, 100, 101] w ∧ l.length = 5 := by
  have hne : w ≠ 0 := by omega
  have hlt : w < 5 := by omega
  constructor
  · unfold wrap_text_to_lines
    simp [if_neg hne, hlt]
  · refine ⟨[97, 98, 99, 100, 101], ?_, by decide⟩
    unfold wrap_text_to_lines
    simp only [if_neg hne, hlt, if_true]
    have : wrapGo 5 6 [97, 98, 99, 100, 101] = [[97, 98, 99, 100, 101]] := by
      decide
    simp [this]

/-- Witness for C10_wrap_clamps_small_widths at width 3. -/
theorem C10_wrap_clamps_small_widths_witness :
    (1 ≤ 3 ∧ 3 ≤ 4) ∧
      (wrap_text_to_lines [97, 98, 32, 99] 3 = wrap_text_to_lines [97, 98, 32, 99] 5 ∧
        ∃ l, l ∈ wrap_text_to_lines [97, 98, 99, 100, 101] 3 ∧ l.length = 5) :=
  ⟨⟨by decide, by decide⟩,
   C10_wrap_clamps_small_widths [97, 98, 32, 99] 3 (by decide) (by decide)⟩

end Wrap

namespace RenderAnsi

/-- Wrap-machine state of render_chat_line_with_ansi (src/main.c, lines
1932-2099): the current row index (current_y minus the starting y), the
visible_chars_on_line counter, last_boundary_visible_chars, and
found_word_boundary. -/
structure WState where
  y : Nat
  visible : Nat
  lastB : Nat
  found : Bool
deriving DecidableEq

/-- Embedding of the visible-codepoint wrap machine of
render_chat_line_with_ansi (src/main.c, lines 2027-2090), recorded as the
list of input indices at which a wrap occurred (a new terminal row was
started by the wrap check).  The input is the sequence of codepoints the
function paints; the SGR/OSC-8 escape parsing of the same function (lines
1963-2031) is projected away because those branches consume input bytes
without ever touching current_y, visible_chars_on_line, or the boundary
trackers, so on escape-free input the two coincide and in general this is
the machine run on the visible codepoints only.  The terminal height h
bounds the loop (while current_y < tb_height()).  A newline starts a new row
and resets the counters without recording a wrap.  Mirroring the C: the
boundary tracker is updated before the wrap check; the wrap check fires once
visible reaches max_width, soft-wrapping to the last word boundary only when
it was found, is strictly before the current count, and lies at or beyond
max_width / 4; a soft wrap carries visible - lastB codepoints into the new
row without repainting them, and a boundary space or tab at the wrap point
is consumed without painting and without resetting the trackers. -/
def render_breaks_go (w h : Nat) : List Nat → Nat → WState → List Nat
  | [], _, _ => []
  | c :: cs, i, st =>
    if h ≤ st.y then []
    else if c = 10 then
      render_breaks_go w h cs (i + 1) ⟨st.y + 1, 0, 0, false⟩
    else
      let isB := Wrap.is_word_boundary c
      let st1 := if isB ∧ 0 < st.visible then
          { st with lastB := st.visible + 1, found := true } else st
      if w ≤ st1.visible then
        if st1.found ∧ st1.lastB < st1.visible ∧ w / 4 ≤ st1.lastB then
          let v2 := st1.visible - st1.lastB
          if isB ∧ (c = 32 ∨ c = 9) then
            i :: render_breaks_go w h cs (i + 1) ⟨st1.y + 1, v2, st1.lastB, st1.found⟩
          else
            i :: render_breaks_go w h cs (i + 1) ⟨st1.y + 1, v2 + 1, 0, false⟩
        else
          i :: render_breaks_go w h cs (i + 1) ⟨st1.y + 1, 1, 0, false⟩
      else
        render_breaks_go w h cs (i + 1) { st1 with visible := st1.visible + 1 }

/-- Wrap decisions of render_chat_line_with_ansi on a line of visible
codepoints at width w on a terminal of height h: the width is clamped to at
least 5 exactly as in wrap_text_to_lines, and a non-positive width returns
immediately. -/
def render_breaks (text : List Nat) (w h : Nat) : List Nat :=
  if w = 0 then []
  else render_breaks_go (if w < 5 then 5 else w) h text 0 ⟨0, 0, 0, false⟩

/-- Claim C6 fails as stated: on the line "abcd efghijkl" at width 12 the
buffered wrapper (section 4.3 policy, one-third threshold in bytes) breaks
after "abcd " — its first line has 5 visible codepoints — while the
draw-time renderer paints 12 visible codepoints before its first wrap
(its only break is at codepoint index 12).  The two passes therefore do not
choose the same break positions over the sequence of visible codepoints. -/
theorem C6_counterexample :
    Wrap.wrap_text_to_lines
        [97, 98, 99, 100, 32, 101, 102, 103, 104, 105, 106, 107, 108] 12 =
      [[97, 98, 99, 100, 32], [101, 102, 103, 104, 105, 106, 107, 108]] ∧
    RenderAnsi.render_breaks
        [97, 98, 99, 100, 32, 101, 102, 103, 104, 105, 106, 107, 108] 12 100 =
      [12] := by
  constructor
  · rfl
  · rfl

theorem render_breaks_go_head (w h : Nat) :
    ∀ (cs : List Nat) (i : Nat) (st : WState),
      st.y < h → st.visible ≤ w → (∀ c ∈ cs, c ≠ 10) →
      w - st.visible < cs.length →
      (render_breaks_go w h cs i st).head? = some (i + (w - st.visible)) := by
  intro cs
  induction cs with
  | nil => intro i st _ _ _ hlen; simp at hlen
  | cons c cs' ih =>
    intro i st hy hv hno hlen
    have hc10 : c ≠ 10 := hno c (by simp)
    simp only [render_breaks_go, if_neg (Nat.not_le.mpr hy), if_neg hc10]
    set st1 := if Wrap.is_word_boundary c ∧ 0 < st.visible then
        { st with lastB := st.visible + 1, found := true } else st with hst1
    have hv1 : st1.visible = st.visible := by
      simp only [hst1]; split <;> rfl
    by_cases hwv : w ≤ st1.visible
    · have : st.visible = w := by omega
      have hgap : w - st.visible = 0 := by omega
      simp only [if_pos hwv]
      split
      · split
        · simp [hgap]
        · simp [hgap]
      · simp [hgap]
    · simp only [if_neg hwv]
      have hlt : st.visible < w := by omega
      have hres := ih (i + 1) { st1 with visible := st1.visible + 1 }
        (by
          show st1.y < h
          simp only [hst1]; split <;> exact hy)
        (by
          show st1.visible + 1 ≤ w
          omega)
        (fun x hx => hno x (by simp [hx]))
        (by
          show w - (st1.visible + 1) < cs'.length
          simp only [List.length_cons] at hlen
          omega)
      rw [hres]
      have : (i + 1) + (w - ({ st1 with visible := st1.visible + 1 } :
          WState).visible) = i + (w - st.visible) := by
        show (i + 1) + (w - (st1.visible + 1)) = i + (w - st.visible)
        omega
      rw [this]

/-- Claim C6, amended: the draw-time renderer does not re-apply the
buffered wrapper's policy.  It always paints a full row of visible
codepoints before wrapping — on any newline-free line longer than the
(clamped) width W its first wrap is at visible-codepoint index exactly W,
regardless of word boundaries — and at a wrap it prefers the last word
boundary only when that boundary lies at or beyond one quarter (not one
third) of the width and strictly before the current count, carrying the
overflow count into the next row.  Its break positions therefore differ in
general from the wrapper's (C6_counterexample gives a line where the
wrapper's first break is at index 5 and the renderer's at index 12). -/
theorem C6_renderer_first_break_at_width (text : List Nat) (w h : Nat)
    (hw : 5 ≤ w) (hh : 0 < h) (hno : ∀ c ∈ text, c ≠ 10)
    (hlen : w < text.length) :
    (render_breaks text w h).head? = some w := by
  have hw0 : w ≠ 0 := by omega
  have hw5 : ¬ w < 5 := by omega
  unfold render_breaks
  simp only [if_neg hw0, if_neg hw5]
  have := render_breaks_go_head w h text 0 ⟨0, 0, 0, false⟩ hh (by simp)
    hno (by simpa using hlen)
  simpa using this

/-- Witness for C6_renderer_first_break_at_width on a concrete line. -/
theorem C6_renderer_first_break_at_width_witness :
    (5 ≤ 12 ∧ 0 < 100 ∧
      (∀ c ∈ [97, 98, 99, 100, 32, 101, 102, 103, 104, 105, 106, 107, 108],
        c ≠ 10) ∧
      12 < ([97, 98, 99, 100, 32, 101, 102, 103, 104, 105, 106, 107,
        108] : List Nat).length) ∧
    (render_breaks
        [97, 98, 99, 100, 32, 101, 102, 103, 104, 105, 106, 107, 108]
        12 100).head? = some 12 :=
  ⟨⟨by decide, by decide, by decide, by decide⟩,
   C6_renderer_first_break_at_width
     [97, 98, 99, 100, 32, 101, 102, 103, 104, 105, 106, 107, 108] 12 100
     (by decide) (by decide) (by decide) (by decide)⟩

end RenderAnsi

namespace Queue

/-- Embedding of tool_execution_t as value data (the linked list becomes a
Lean list).  The response payload is nullable until resolved. -/
structure ToolExec where
  tool_name : List Char
  parameters : List Char
  response : Option (List Char)
deriving DecidableEq

/-- Embedding of message_update_t (src/main.c) as created by
create_message_update (lines 808-821): the target message is identified by
an abstract reference (the C pointer), new_content is NULL or an owned copy
of the content, new_tool_executions is NULL or a deep clone of the list
(clone_tool_executions maps NULL to NULL and a nonempty list to an equal
list, so Option carries exactly the NULL-ness), and process_markdown is set
iff content was non-NULL. -/
structure MessageUpdate where
  target : Nat
  new_content : Option (List Char)
  is_streaming : Bool
  new_tool_executions : Option (List ToolExec)
deriving DecidableEq

/-- The process_markdown field of create_message_update: set exactly when
content is non-NULL. -/
def MessageUpdate.process_markdown (u : MessageUpdate) : Bool :=
  u.new_content.isSome

/-- Embedding of queue_message_update (src/main.c, lines 832-850): under the
queue mutex the update is linked at the tail, so the queue as a list gains
the update at its end.  The mutex makes each append atomic; its effect on
the list is this pure function. -/
def enqueue (q : List MessageUpdate) (u : MessageUpdate) : List MessageUpdate :=
  q ++ [u]

/-- Embedding of the detach step of process_message_updates (src/main.c,
lines 919-927): under the mutex the head and tail are swapped for NULL and
the previous chain is returned to be processed outside the lock.  Result:
(drained list in enqueue order, new queue contents). -/
def drain_all (q : List MessageUpdate) :
    List MessageUpdate × List MessageUpdate :=
  (q, [])

/-- The per-message fields process_message_updates mutates (src/main.c,
lines 929-957): content, the streaming flag, and the tool-execution list
(the rendered-lines rebuild is derived from these and not modeled). -/
structure Message where
  content : List Char
  is_streaming : Bool
  tool_executions : List ToolExec
deriving DecidableEq

/-- Embedding of the body of the processing loop of process_message_updates
for one update applied to its target message (src/main.c, lines 932-946):
content is overwritten only when new_content is non-NULL, the streaming flag
is always overwritten, and the tool-execution list is replaced by a clone
only when new_tool_executions is non-NULL. -/
def apply_update (m : Message) (u : MessageUpdate) : Message :=
  { content := match u.new_content with
      | some c => c
      | none => m.content
    is_streaming := u.is_streaming
    tool_executions := match u.new_tool_executions with
      | some t => t
      | none => m.tool_executions }

/-- Processing of a drained batch against one target message: the loop
walks the chain in enqueue order, so the batch folds left-to-right. -/
def apply_updates (m : Message) (us : List MessageUpdate) : Message :=
  us.foldl apply_update m

theorem foldl_enqueue_append (us : List MessageUpdate) :
    ∀ (acc : List MessageUpdate), us.foldl enqueue acc = acc ++ us := by
  induction us with
  | nil => intro acc; simp
  | cons u us ih =>
    intro acc
    simp only [List.foldl_cons, enqueue, ih, List.append_assoc,
      List.singleton_append]

/-- Claim C3: enqueue appends at the queue tail, drain atomically swaps the
internal list for empty and returns the previous list in enqueue order, and
applying one drained batch to a message in that order is field-wise
last-write-wins: the final content is the last non-NULL new_content of the
batch (or the old content when none carries one), the streaming flag is the
last update's flag (or the old flag for an empty batch), and the
tool-execution list is the last non-NULL new_tool_executions (or the old
list). -/
theorem C3_queue_order_last_write_wins (q us : List MessageUpdate)
    (m : Message) :
    (drain_all q).1 = q ∧ (drain_all q).2 = [] ∧
    us.foldl enqueue [] = us ∧
    (apply_updates m us).content =
      ((us.filterMap MessageUpdate.new_content).getLast?).getD m.content ∧
    (apply_updates m us).is_streaming =
      ((us.getLast?).map MessageUpdate.is_streaming).getD m.is_streaming ∧
    (apply_updates m us).tool_executions =
      ((us.filterMap MessageUpdate.new_tool_executions).getLast?).getD
        m.tool_executions := by
  refine ⟨rfl, rfl, by simpa using foldl_enqueue_append us [], ?_⟩
  induction us using List.reverseRecOn with
  | nil => simp [apply_updates]
  | append_singleton us u ih =>
    obtain ⟨ihc, ihs, iht⟩ := ih
    have happ : apply_updates m (us ++ [u]) =
        apply_update (apply_updates m us) u := by
      simp [apply_updates]
    refine ⟨?_, ?_, ?_⟩
    · rw [happ]
      match hu : u.new_content with
      | some c => simp [apply_update, hu, List.filterMap_append]
      | none =>
        simp only [apply_update, hu]
        simpa [List.filterMap_append, hu] using ihc
    · rw [happ]
      simp [apply_update]
    · rw [happ]
      match hu : u.new_tool_executions with
      | some t => simp [apply_update, hu, List.filterMap_append]
      | none =>
        simp only [apply_update, hu]
        simpa [List.filterMap_append, hu] using iht

end Queue

namespace Conc

open Queue

/-- Concurrency model for the update queue.  Each call to
queue_message_update is one atomic critical section (the whole append runs
under update_queue.mutex, src/main.c lines 839-849), so any concurrent
execution of several producer threads is equivalent to some serial
interleaving of their enqueue calls that preserves each thread's program
order.  Mergeable ts m says m is such an interleaving of the per-thread
traces ts: it is built by repeatedly taking the next pending update of one
of the threads. -/
inductive Mergeable :
    List (List MessageUpdate) → List MessageUpdate → Prop where
  | done (ts : List (List MessageUpdate)) (h : ∀ t ∈ ts, t = []) :
      Mergeable ts []
  | step (ts : List (List MessageUpdate)) (i : Nat) (x : MessageUpdate)
      (rest : List MessageUpdate) (m : List MessageUpdate)
      (hget : ts.get? i = some (x :: rest))
      (hm : Mergeable (ts.set i rest) m) : Mergeable ts (x :: m)

theorem length_sum_set {α : Type} (ts : List (List α)) :
    ∀ (i : Nat) (x : α) (rest : List α), ts.get? i = some (x :: rest) →
      ((ts.set i rest).map List.length).sum + 1 = (ts.map List.length).sum := by
  induction ts with
  | nil => intro i x rest h; simp at h
  | cons t ts ih =>
    intro i x rest h
    match i with
    | 0 =>
      simp only [List.get?] at h
      injection h with h
      subst h
      simp only [List.set, List.map_cons, List.sum_cons, List.length_cons]
      omega
    | i + 1 =>
      simp only [List.get?] at h
      simp only [List.set, List.map_cons, List.sum_cons]
      have := ih i x rest h
      omega

theorem mergeable_length {ts : List (List MessageUpdate)}
    {m : List MessageUpdate} (h : Mergeable ts m) :
    m.length = (ts.map List.length).sum := by
  induction h with
  | done ts h =>
    simp only [List.length_nil]
    symm
    rw [List.sum_eq_zero]
    intro x hx
    simp only [List.mem_map] at hx
    obtain ⟨t, ht, rfl⟩ := hx
    simp [h t ht]
  | step ts i x rest m hget hm ih =>
    have := length_sum_set ts i x rest hget
    simp only [List.length_cons, ih]
    omega

theorem mergeable_sublist {ts : List (List MessageUpdate)}
    {m : List MessageUpdate} (h : Mergeable ts m) :
    ∀ t ∈ ts, t.Sublist m := by
  induction h with
  | done ts h =>
    intro t ht
    rw [h t ht]
  | step ts i x rest m hget hm ih =>
    intro t ht
    obtain ⟨j, hj⟩ := List.get?_of_mem ht
    by_cases hij : j = i
    · subst hij
      rw [hj] at hget
      injection hget with hget
      subst hget
      have hlt : j < ts.length := (List.get?_eq_some.mp hj).1
      have hrest : rest ∈ ts.set j rest :=
        List.get?_mem (List.get?_set_eq_of_lt rest hlt)
      exact (ih rest hrest).cons₂ x
    · have hj2 : (ts.set i rest).get? j = some t := by
        rw [List.get?_set_ne rest ts (fun hh => hij hh.symm), hj]
      exact (ih t (List.get?_mem hj2)).cons x

/-- Every serial interleaving of enqueue calls produces exactly the merged
sequence as the queue contents: folding queue_message_update's append over
the interleaved order starting from the empty queue. -/
theorem mergeable_foldl_enqueue {ts : List (List MessageUpdate)}
    {m : List MessageUpdate} (_ : Mergeable ts m) :
    m.foldl enqueue [] = m := by
  simpa using foldl_enqueue_append m []

/-- One thread's trace can be taken first, then the remaining threads
interleaved: used to exhibit a concrete interleaving. -/
theorem mergeable_cons_append {t : List MessageUpdate}
    {ts : List (List MessageUpdate)} {m : List MessageUpdate}
    (h : Mergeable ts m) : Mergeable (t :: ts) (t ++ m) := by
  induction t with
  | nil =>
    simp only [List.nil_append]
    induction h with
    | done ts hh =>
      exact Mergeable.done _ (by
        intro u hu
        rcases List.mem_cons.mp hu with h1 | h1
        · exact h1
        · exact hh u h1)
    | step ts i x rest mm hget hm ih =>
      exact Mergeable.step _ (i + 1) x rest mm hget ih
  | cons x t ih =>
    exact Mergeable.step _ 0 x t _ rfl ih

/-- A concrete interleaving always exists: running the threads one after
another in list order. -/
theorem mergeable_join (ts : List (List MessageUpdate)) :
    Mergeable ts ts.join := by
  induction ts with
  | nil => exact Mergeable.done [] (by intro t ht; simp at ht)
  | cons t ts ih => exact mergeable_cons_append ih

/-- Claim C4: for any execution in which 8 producer threads issue 1,000
enqueue calls in total (each enqueue atomic under the queue mutex, so the
execution is an order-preserving interleaving m of the 8 per-thread
traces), the queue built by the interleaved appends is exactly m; the
single drain on the consumer thread then returns all 1,000 updates — no
loss, no duplication — leaves the queue empty, and every producer's updates
appear in the drained list in that producer's enqueue order (its trace is
an order-preserving sublist of the drained list). -/
theorem C4_concurrent_enqueue_drain (ts : List (List MessageUpdate))
    (m : List MessageUpdate) (hm : Mergeable ts m) (hthreads : ts.length = 8)
    (htotal : (ts.map List.length).sum = 1000) :
    (drain_all (m.foldl enqueue [])).1 = m ∧
    (drain_all (m.foldl enqueue [])).2 = [] ∧
    (drain_all (m.foldl enqueue [])).1.length = 1000 ∧
    ∀ t ∈ ts, t.Sublist (drain_all (m.foldl enqueue [])).1 := by
  have hq : m.foldl enqueue [] = m := mergeable_foldl_enqueue hm
  refine ⟨by simp [drain_all, hq], rfl, ?_, ?_⟩
  · rw [hq]
    show m.length = 1000
    rw [mergeable_length hm, htotal]
  · intro t ht
    rw [hq]
    exact mergeable_sublist hm t ht

/-- Witness for C4_concurrent_enqueue_drain: 8 threads of 125 identical
updates each, interleaved by concatenation. -/
theorem C4_concurrent_enqueue_drain_witness :
    ((List.replicate 8 (List.replicate 125
        (⟨0, none, true, none⟩ : Queue.MessageUpdate))).length = 8 ∧
      ((List.replicate 8 (List.replicate 125
        (⟨0, none, true, none⟩ : Queue.MessageUpdate))).map List.length).sum
          = 1000) ∧
    ((drain_all ((List.replicate 8 (List.replicate 125
        (⟨0, none, true, none⟩ : Queue.MessageUpdate))).join.foldl enqueue
          [])).1.length = 1000) := by
  refine ⟨⟨by simp, by simp⟩, ?_⟩
  have h := C4_concurrent_enqueue_drain
    (List.replicate 8 (List.replicate 125
      (⟨0, none, true, none⟩ : Queue.MessageUpdate)))
    _ (mergeable_join _) (by simp) (by simp)
  exact h.2.2.1

end Conc

namespace Streaming

/-- Embedding of the streaming-session fields of the application state
(app.streaming in src/main.c): active flag, stream handle (none models
AI_INVALID_ID), waiting_for_stream, the accumulation buffer (none models a
NULL pointer, some its contents), and accumulated_length.  All accesses in
the embedded functions happen under app.streaming.mutex in the C code, so
each function is one atomic step. -/
structure SessionState where
  active : Bool
  stream_id : Option Nat
  waiting_for_stream : Bool
  accumulated_text : Option (List Char)
  accumulated_length : Nat
deriving DecidableEq

/-- The application state the streaming claims touch: the session, the
pointer to the message currently receiving the stream (app.current_streaming,
identified abstractly), and the update queue. -/
structure AppState where
  streaming : SessionState
  current_streaming : Option Nat
  queue : List Queue.MessageUpdate
deriving DecidableEq

/-- Embedding of the calls queue_message_update(msg, content, streaming,
NULL) issued by streaming_callback: create_message_update copies the
content and the update is appended at the queue tail (src/main.c lines
832-850). -/
def queue_update (st : AppState) (msg : Nat) (content : List Char)
    (is_streaming : Bool) : AppState :=
  { st with queue := Queue.enqueue st.queue ⟨msg, some content, is_streaming, none⟩ }

/-- Embedding of streaming_callback (src/main.c, lines 4300-4348).  The
chunk is none for the terminating NULL call; allocOk tells whether the
realloc of the accumulation buffer succeeds (the only fallible step).  The
context and user_data parameters of the C callback are ignored by the code,
so the function has no notion of which stream a chunk belongs to.  On a
NULL chunk: deactivate, invalidate the handle, clear waiting, enqueue a
final streaming=false update with the accumulated text (only when a current
message and a buffer exist), then free the buffer and zero the length.  On
a text chunk: clear waiting; if realloc succeeds, append the chunk to the
buffer (realloc of a NULL buffer allocates fresh, hence getD []), bump the
length by the chunk's length, and enqueue a streaming=true update carrying
the full accumulated text; if realloc fails nothing else happens.  The
memcpy at offset old_len coincides with list append because the code keeps
accumulated_length equal to the buffer's length at every site. -/
def streaming_callback (chunk : Option (List Char)) (allocOk : Bool)
    (st : AppState) : AppState :=
  match chunk with
  | none =>
    let s1 := { st.streaming with
      active := false
      stream_id := none
      waiting_for_stream := false }
    let st1 := { st with streaming := s1 }
    let st2 := match st.current_streaming, s1.accumulated_text with
      | some m, some txt => queue_update st1 m txt false
      | _, _ => st1
    { st2 with streaming := { st2.streaming with
        accumulated_text := none
        accumulated_length := 0 } }
  | some c =>
    let s1 := { st.streaming with waiting_for_stream := false }
    if allocOk then
      let newText := s1.accumulated_text.getD [] ++ c
      let s2 := { s1 with
        accumulated_text := some newText
        accumulated_length := s1.accumulated_length + c.length }
      let st1 := { st with streaming := s2 }
      match st.current_streaming with
      | some m => queue_update st1 m newText true
      | none => st1
    else
      { st with streaming := s1 }

/-- Embedding of the session reset in the ESC branch of handle_input
(src/main.c, lines 3404-3418): after the best-effort ai_cancel_stream call
the state is reset immediately, in the same frame, without waiting for any
acknowledgement — active cleared, handle invalidated, waiting cleared,
accumulation buffer freed, length zeroed.  current_streaming is NOT
cleared (the code only clears the message's own is_streaming flag, which
lives in the message store). -/
def cancel_streaming (st : AppState) : AppState :=
  { st with streaming := { st.streaming with
      active := false
      stream_id := none
      waiting_for_stream := false
      accumulated_text := none
      accumulated_length := 0 } }

/-- Embedding of the state initialisation of start_streaming_response
(src/main.c, lines 4387-4409): activate, invalidate the handle until the
collaborator returns one, set waiting, free any previous buffer and
allocate a fresh empty one, zero the length, and point current_streaming at
the freshly appended assistant message. -/
def start_streaming_response (st : AppState) (newMsg : Nat) : AppState :=
  { st with
    streaming := { st.streaming with
      active := true
      stream_id := none
      waiting_for_stream := true
      accumulated_text := some []
      accumulated_length := 0 }
    current_streaming := some newMsg }

/-- Delivery of a sequence of text chunks, every reallocation
succeeding. -/
def deliver_chunks (st : AppState) (cs : List (List Char)) : AppState :=
  cs.foldl (fun s c => streaming_callback (some c) true s) st

/-- The running concatenations the callback accumulates: element k is the
concatenation of the first k+1 chunks appended to the initial buffer t0. -/
def accum_texts (t0 : List Char) : List (List Char) → List (List Char)
  | [] => []
  | c :: cs => (t0 ++ c) :: accum_texts (t0 ++ c) cs

/-- The update streaming_callback enqueues for message m with text t. -/
def chunk_update (m : Nat) (t : List Char) (s : Bool) :
    Queue.MessageUpdate :=
  ⟨m, some t, s, none⟩

theorem deliver_chunks_spec (cs : List (List Char)) :
    ∀ (st : AppState) (m : Nat) (t0 : List Char),
      st.streaming.accumulated_text = some t0 →
      st.current_streaming = some m →
      (deliver_chunks st cs).queue =
          st.queue ++ (accum_texts t0 cs).map (fun t => chunk_update m t true) ∧
      (deliver_chunks st cs).streaming.accumulated_text =
          some (t0 ++ cs.join) ∧
      (deliver_chunks st cs).current_streaming = some m := by
  induction cs with
  | nil =>
    intro st m t0 hacc hcur
    refine ⟨by simp [deliver_chunks, accum_texts], ?_, hcur⟩
    simp [deliver_chunks, hacc]
  | cons c cs ih =>
    intro st m t0 hacc hcur
    have hstep : deliver_chunks st (c :: cs) =
        deliver_chunks (streaming_callback (some c) true st) cs := by
      simp [deliver_chunks]
    have hmid : (streaming_callback (some c) true st).streaming.accumulated_text
        = some (t0 ++ c) := by
      simp [streaming_callback, hacc, hcur, queue_update]
    have hmidc : (streaming_callback (some c) true st).current_streaming
        = some m := by
      simp [streaming_callback, hacc, hcur, queue_update]
    have hmidq : (streaming_callback (some c) true st).queue =
        st.queue ++ [chunk_update m (t0 ++ c) true] := by
      simp [streaming_callback, hacc, hcur, queue_update, Queue.enqueue,
        chunk_update]
    obtain ⟨hq, ha, hc⟩ := ih (streaming_callback (some c) true st) m (t0 ++ c)
      hmid hmidc
    rw [hstep]
    refine ⟨?_, ?_, hc⟩
    · rw [hq, hmidq]
      simp [accum_texts]
    · rw [ha]
      simp [List.join]

/-- Claim C1: starting from a session whose accumulation buffer is empty
and whose current message is m (the state start_streaming_response
establishes), delivering N text chunks and then the terminating NULL chunk,
with every reallocation succeeding, (1) appends each chunk to the
accumulation buffer and enqueues for it a streaming=true update carrying
the full accumulated prefix concatenation (not just the delta), and (2) the
final streaming=false update enqueued on the NULL chunk carries exactly the
concatenation of the N chunks in delivery order, after which the buffer is
freed. -/
theorem C1_stream_accumulation (st : AppState) (m : Nat)
    (cs : List (List Char))
    (hacc : st.streaming.accumulated_text = some [])
    (hcur : st.current_streaming = some m) :
    (streaming_callback none true (deliver_chunks st cs)).queue =
        st.queue ++ (accum_texts [] cs).map (fun t => chunk_update m t true)
          ++ [chunk_update m cs.join false] ∧
    (deliver_chunks st cs).streaming.accumulated_text = some cs.join ∧
    (streaming_callback none true
        (deliver_chunks st cs)).streaming.accumulated_text = none := by
  obtain ⟨hq, ha, hc⟩ := deliver_chunks_spec cs st m [] hacc hcur
  have ha' : (deliver_chunks st cs).streaming.accumulated_text =
      some cs.join := by simpa using ha
  refine ⟨?_, ha', ?_⟩
  · simp only [streaming_callback, hc, ha']
    simp [queue_update, Queue.enqueue, chunk_update, hq]
  · simp [streaming_callback, hc, ha', queue_update]

/-- Witness for C1_stream_accumulation: two chunks "ab" and "c" delivered
into a freshly started session. -/
theorem C1_stream_accumulation_witness :
    ((start_streaming_response ⟨⟨false, none, false, none, 0⟩, none, []⟩
        7).streaming.accumulated_text = some [] ∧
      (start_streaming_response ⟨⟨false, none, false, none, 0⟩, none, []⟩
        7).current_streaming = some 7) ∧
    (streaming_callback none true
        (deliver_chunks
          (start_streaming_response ⟨⟨false, none, false, none, 0⟩, none, []⟩ 7)
          [[Char.ofNat 97, Char.ofNat 98], [Char.ofNat 99]])).queue =
      [] ++ (accum_texts [] [[Char.ofNat 97, Char.ofNat 98],
          [Char.ofNat 99]]).map (fun t => chunk_update 7 t true)
        ++ [chunk_update 7 ([[Char.ofNat 97, Char.ofNat 98],
          [Char.ofNat 99]] : List (List Char)).join false] := by
  refine ⟨⟨rfl, rfl⟩, ?_⟩
  exact (C1_stream_accumulation
    (start_streaming_response ⟨⟨false, none, false, none, 0⟩, none, []⟩ 7) 7
    [[Char.ofNat 97, Char.ofNat 98], [Char.ofNat 99]] rfl rfl).1

/-- Claim C2 fails as stated: the callback carries no notion of which
stream a chunk belongs to (streaming_callback ignores its context argument)
and cancel does not clear current_streaming, so a late chunk from the
cancelled stream that arrives after the next start appends to the NEW
session's accumulation buffer.  Concretely: start, receive "A", cancel,
start again (buffer is empty at that instant), then the cancelled stream's
late chunk "B" arrives — the new session's buffer now holds "B", not the
empty buffer the claim promises. -/
theorem C2_counterexample :
    (streaming_callback (some [Char.ofNat 66]) true
        (start_streaming_response
          (cancel_streaming
            (streaming_callback (some [Char.ofNat 65]) true
              (start_streaming_response
                ⟨⟨false, none, false, none, 0⟩, none, []⟩ 1)))
          2)).streaming.accumulated_text = some [Char.ofNat 66] ∧
    some [Char.ofNat 66] ≠ (some ([] : List Char)) := by
  constructor
  · rfl
  · decide

/-- Claim C2, amended: issuing cancel at any point immediately — in the
same frame, without waiting for collaborator acknowledgement — clears the
active flag, invalidates the stream handle, and frees the accumulation
buffer, and every subsequent start begins with an empty accumulation
buffer at the moment start runs.  However, late callbacks from the
cancelled stream are not filtered by handle (the callback ignores its
context), so a stale chunk arriving after the next start DOES append to
the new session's buffer (C2_counterexample). -/
theorem C2_cancel_resets_start_empty (st st2 : AppState) (m : Nat) :
    ((cancel_streaming st).streaming.active = false ∧
      (cancel_streaming st).streaming.stream_id = none ∧
      (cancel_streaming st).streaming.accumulated_text = none ∧
      (cancel_streaming st).streaming.accumulated_length = 0) ∧
    ((start_streaming_response st2 m).streaming.accumulated_text = some [] ∧
      (start_streaming_response st2 m).streaming.accumulated_length = 0 ∧
      (start_streaming_response st2 m).streaming.active = true) :=
  ⟨⟨rfl, rfl, rfl, rfl⟩, ⟨rfl, rfl, rfl⟩⟩

/-- Claim C8: when the reallocation of the accumulation buffer fails while
handling a non-null chunk, the chunk is dropped and streaming continues:
the accumulated text, the recorded length, the active flag, the stream
handle, current_streaming, and the queue are all unchanged (only the
waiting_for_stream flag is cleared, which happens before the realloc), no
update is enqueued for the dropped chunk, and a subsequent successful chunk
still appends to the previously accumulated text as usual. -/
theorem C8_alloc_failure_drops_chunk (st : AppState) (c c2 : List Char) :
    (streaming_callback (some c) false st).streaming.accumulated_text =
        st.streaming.accumulated_text ∧
    (streaming_callback (some c) false st).streaming.accumulated_length =
        st.streaming.accumulated_length ∧
    (streaming_callback (some c) false st).streaming.active =
        st.streaming.active ∧
    (streaming_callback (some c) false st).streaming.stream_id =
        st.streaming.stream_id ∧
    (streaming_callback (some c) false st).current_streaming =
        st.current_streaming ∧
    (streaming_callback (some c) false st).queue = st.queue ∧
    (streaming_callback (some c2) true
        (streaming_callback (some c) false st)).streaming.accumulated_text =
      some (st.streaming.accumulated_text.getD [] ++ c2) := by
  refine ⟨rfl, rfl, rfl, rfl, rfl, rfl, ?_⟩
  simp only [streaming_callback, reduceIte]
  split <;> rfl

end Streaming

namespace Tbl

/-- Embedding of calculate_text_width (src/third-party/md4c_ansi.c, lines
328-347): the visible width of buffered cell text, counting every byte
except ESC [ ... m color sequences (a lone ESC not followed by an opening
bracket consumes only the ESC byte).  The C's inner while (skip to the m,
inclusive) is the esc = true mode of the same scan. -/
def calc_width_go : Bool → List Char → Nat
  | _, [] => 0
  | true, a :: v => if a = 'm' then calc_width_go false v else calc_width_go true v
  | false, a :: v =>
    if a = Char.ofNat 27 then
      match v with
      | [] => 0
      | b :: u => if b = '[' then calc_width_go true u
                  else calc_width_go false (b :: u)
    else 1 + calc_width_go false v

/-- The visible width of a cell's buffered text. -/
def calculate_text_width (l : List Char) : Nat :=
  calc_width_go false l

/-- Cell alignment as declared by the parser detail (the MD_ALIGN values
of md4c); left and the default alignment share the same padding rule in
render_complete_table's switch. -/
inductive Align where
  | default_align
  | left
  | right
  | center
deriving DecidableEq

/-- One buffered table cell: the text accumulated for it by
add_to_table_cell_buffer and its declared alignment (table_aligns). -/
structure TableCell where
  content : List Char
  align : Align
deriving DecidableEq

/-- Output alphabet of the table renderer: the box-drawing glyphs the C
emits as UTF-8 literals (BOX_TL, BOX_H, ...), spaces, verbatim cell text,
the bright-black border color, the style reset, and newline. -/
inductive TTok where
  | tl | tr | bl | br | hbar | vbar | tdown | tup | tright | tleft | cross
  | sp
  | txt (s : List Char)
  | color
  | reset
  | nl
deriving DecidableEq

/-- Post-pass column count of render_complete_table (src/third-party/
md4c_ansi.c, lines 887-898): table_col_count becomes the maximum cell_count
over the buffered rows (the loop raises it to j + 1 for every populated
cell index j, starting from the 0 set at table enter). -/
def col_count (rows : List (List TableCell)) : Nat :=
  rows.foldl (fun a r => max a r.length) 0

/-- Post-pass column width of render_complete_table (same loop):
table_cols[j] becomes the maximum calculate_text_width over column j's
cells, starting from the array zeroed when the table block was entered.
The C caps j at 64 cells and 128 buffered rows; the embedding keeps the
uncapped behaviour, which coincides for tables within those bounds. -/
def col_width (rows : List (List TableCell)) (j : Nat) : Nat :=
  rows.foldl (fun a r =>
    match r.get? j with
    | some cell => max a (calculate_text_width cell.content)
    | none => a) 0

/-- The computed column-width vector, in column order. -/
def compute_cols (rows : List (List TableCell)) : List Nat :=
  (List.range (col_count rows)).map (col_width rows)

/-- One border's column segments (src/third-party/md4c_ansi.c, lines
903-912, 966-976, 984-994): each column contributes table_cols[i] + 2
horizontal glyphs, with the mid junction between columns. -/
def border_cols (rows : List (List TableCell)) (mid : TTok) : List TTok :=
  ((List.range (col_count rows)).map (fun i =>
    List.replicate (col_width rows i + 2) TTok.hbar ++
      (if i < col_count rows - 1 then [mid] else []))).join

/-- Top border: color, BOX_TL, segments joined by BOX_T_DOWN, BOX_TR,
reset, newline.  render_indent emits nothing at zero quote/list nesting. -/
def top_border (rows : List (List TableCell)) : List TTok :=
  [TTok.color, TTok.tl] ++ border_cols rows TTok.tdown ++
    [TTok.tr, TTok.reset, TTok.nl]

/-- Header separator: BOX_T_RIGHT, segments joined by BOX_CROSS,
BOX_T_LEFT. -/
def sep_border (rows : List (List TableCell)) : List TTok :=
  [TTok.color, TTok.tright] ++ border_cols rows TTok.cross ++
    [TTok.tleft, TTok.reset, TTok.nl]

/-- Bottom border: BOX_BL, segments joined by BOX_T_UP, BOX_BR. -/
def bot_border (rows : List (List TableCell)) : List TTok :=
  [TTok.color, TTok.bl] ++ border_cols rows TTok.tup ++
    [TTok.br, TTok.reset, TTok.nl]

/-- One data cell (src/third-party/md4c_ansi.c, lines 921-958): a leading
space, the cell content padded to the column width per its alignment (a
missing cell becomes width many spaces), a trailing space, and the colored
border glyph. -/
def cell_toks (rows : List (List TableCell)) (row : List TableCell)
    (j : Nat) : List TTok :=
  [TTok.sp] ++
  (match row.get? j with
   | some cell =>
     let padding := col_width rows j - calculate_text_width cell.content
     let pads : Nat × Nat :=
       match cell.align with
       | Align.left => (0, padding)
       | Align.default_align => (0, padding)
       | Align.right => (padding, 0)
       | Align.center => (padding / 2, padding - padding / 2)
     List.replicate pads.1 TTok.sp ++ [TTok.txt cell.content] ++
       List.replicate pads.2 TTok.sp
   | none => List.replicate (col_width rows j) TTok.sp) ++
  [TTok.sp, TTok.color, TTok.vbar, TTok.reset]

/-- One data row (src/third-party/md4c_ansi.c, lines 917-961): the left
border glyph, then every column's cell, then a newline. -/
def data_row (rows : List (List TableCell)) (row : List TableCell) :
    List TTok :=
  [TTok.color, TTok.vbar, TTok.reset] ++
    ((List.range (col_count rows)).map (cell_toks rows row)).join ++
    [TTok.nl]

/-- Embedding of render_complete_table (src/third-party/md4c_ansi.c, lines
879-999), invoked from leave_block_callback when the MD_BLOCK_TABLE block
closes: an empty buffer renders nothing; otherwise the column widths are
computed in the post-pass over the buffered rows, and the grid is emitted
with the header separator after row table_header_rows - 1 when further rows
follow (the comparison is in C int arithmetic, hence the casts). -/
def render_complete_table (rows : List (List TableCell))
    (header_rows : Nat) : List TTok :=
  if rows.length = 0 then []
  else
    top_border rows ++
    ((rows.enum.map (fun p =>
        data_row rows p.2 ++
          (if (p.1 : Int) = (header_rows : Int) - 1 ∧
              (p.1 : Int) < (rows.length : Int) - 1
           then sep_border rows else []))).join) ++
    bot_border rows

/-- The concrete table of claim C9: header row cells "a" and "bbbb", data
row cells "cc" and "d", all with the parser's default alignment. -/
def c9_rows : List (List TableCell) :=
  [[⟨[Char.ofNat 97], Align.default_align⟩,
    ⟨[Char.ofNat 98, Char.ofNat 98, Char.ofNat 98, Char.ofNat 98],
      Align.default_align⟩],
   [⟨[Char.ofNat 99, Char.ofNat 99], Align.default_align⟩,
    ⟨[Char.ofNat 100], Align.default_align⟩]]

/-- Claim C9: for the table with first row ["a", "bbbb"] and second row
["cc", "d"], the post-pass computes column widths [2, 4], and the emitted
top, header-separator, and bottom borders are built from box-drawing glyphs
whose horizontal segments are exactly column-width + 2 glyphs wide (4 and 6
here), with the separator emitted after the single header row. -/
theorem C9_table_widths_and_borders :
    compute_cols c9_rows = [2, 4] ∧
    render_complete_table c9_rows 1 =
      ([TTok.color, TTok.tl] ++ List.replicate (2 + 2) TTok.hbar ++
          [TTok.tdown] ++ List.replicate (4 + 2) TTok.hbar ++
          [TTok.tr, TTok.reset, TTok.nl]) ++
      ([TTok.color, TTok.vbar, TTok.reset] ++
        [TTok.sp, TTok.txt [Char.ofNat 97], TTok.sp,
          TTok.sp, TTok.color, TTok.vbar, TTok.reset] ++
        [TTok.sp, TTok.txt [Char.ofNat 98, Char.ofNat 98, Char.ofNat 98,
            Char.ofNat 98],
          TTok.sp, TTok.color, TTok.vbar, TTok.reset] ++ [TTok.nl]) ++
      ([TTok.color, TTok.tright] ++ List.replicate (2 + 2) TTok.hbar ++
          [TTok.cross] ++ List.replicate (4 + 2) TTok.hbar ++
          [TTok.tleft, TTok.reset, TTok.nl]) ++
      ([TTok.color, TTok.vbar, TTok.reset] ++
        [TTok.sp, TTok.txt [Char.ofNat 99, Char.ofNat 99],
          TTok.sp, TTok.color, TTok.vbar, TTok.reset] ++
        [TTok.sp, TTok.txt [Char.ofNat 100], TTok.sp, TTok.sp, TTok.sp,
          TTok.sp, TTok.color, TTok.vbar, TTok.reset] ++ [TTok.nl]) ++
      ([TTok.color, TTok.bl] ++ List.replicate (2 + 2) TTok.hbar ++
          [TTok.tup] ++ List.replicate (4 + 2) TTok.hbar ++
          [TTok.br, TTok.reset, TTok.nl]) := by
  constructor
  · rfl
  · rfl

end Tbl

namespace Hl

/-- ASCII ctype predicates as used by the lexer (src/third-party/
md4c_ansi.c); bytes are modeled as naturals. -/
def isspace (c : Nat) : Bool :=
  c == 32 || c == 9 || c == 10 || c == 11 || c == 12 || c == 13

/-- ISDIGIT from md4c_ansi.c. -/
def isdigit (c : Nat) : Bool := decide (48 ≤ c) && decide (c ≤ 57)

/-- ISLOWER from md4c_ansi.c. -/
def islower (c : Nat) : Bool := decide (97 ≤ c) && decide (c ≤ 122)

/-- ISUPPER from md4c_ansi.c. -/
def isupper (c : Nat) : Bool := decide (65 ≤ c) && decide (c ≤ 90)

/-- isalpha over ASCII. -/
def isalpha (c : Nat) : Bool := islower c || isupper c

/-- ISALNUM from md4c_ansi.c. -/
def isalnum (c : Nat) : Bool := islower c || isupper c || isdigit c

/-- is_word_char (src/third-party/md4c_ansi.c, line 241): alphanumeric or
underscore. -/
def is_word_char (c : Nat) : Bool := isalnum c || c == 95

/-- is_number_start (line 337): digit or dot. -/
def is_number_start (c : Nat) : Bool := isdigit c || c == 46

/-- is_number_char (lines 339-344): digits, dot, exponent/size/hex
letters. -/
def is_number_char (c : Nat) : Bool :=
  isdigit c || c == 46 || c == 120 || c == 88 || c == 101 || c == 69 ||
  c == 102 || c == 70 || c == 108 || c == 76 || c == 117 || c == 85 ||
  (decide (97 ≤ c) && decide (c ≤ 102)) ||
  (decide (65 ≤ c) && decide (c ≤ 70))

/-- Byte codes of the operators string (line 193). -/
def operator_codes : List Nat :=
  [43, 45, 42, 47, 37, 61, 60, 62, 33, 38, 124, 94, 126, 40, 41, 91, 93,
   123, 125, 46, 44, 59, 58, 63, 64, 35, 36]

/-- strchr(operators, c). -/
def is_operator (c : Nat) : Bool := operator_codes.contains c

/-- The two-character operator pairs recognised by the operator branch
(lines 535-546). -/
def op_pair (c d : Nat) : Bool :=
  (c == 60 && d == 60) || (c == 62 && d == 62) || (c == 61 && d == 61) ||
  (c == 33 && d == 61) || (c == 60 && d == 61) || (c == 62 && d == 61) ||
  (c == 38 && d == 38) || (c == 124 && d == 124) || (c == 43 && d == 43) ||
  (c == 45 && d == 45) || (c == 43 && d == 61) || (c == 45 && d == 61) ||
  (c == 42 && d == 61) || (c == 47 && d == 61) || (c == 37 && d == 61) ||
  (c == 94 && d == 61) || (c == 38 && d == 61) || (c == 124 && d == 61)

/-- Lookahead i + 1 < line_len and line[i+1] = d0. -/
def head_is (rest : List Nat) (d0 : Nat) : Bool :=
  match rest with
  | d :: _ => d == d0
  | [] => false

/-- The i = 0 or isspace(line[i - 1]) test: prev is the byte before the
current scan position (none at the start of the delivered line). -/
def prev_blank (prev : Option Nat) : Bool :=
  match prev with
  | some p => isspace p
  | none => true

/-- The is_word_char(line[i - 1]) lookbehind (false at the line start). -/
def prev_word (prev : Option Nat) : Bool :=
  match prev with
  | some p => is_word_char p
  | none => false

/-- token_type_t from md4c_ansi.c. -/
inductive TokenType where
  | normal
  | keyword
  | string_tok
  | comment
  | number
  | operator_tok
  | identifier
  | preprocessor
  | boolean
  | null_tok
  | function_tok
  | type_tok
  | constant
deriving DecidableEq

/-- Whether get_token_color (lines 203-233) returns a nonempty color
string: empty exactly for TOKEN_IDENTIFIER and the default (TOKEN_NORMAL)
case. -/
def colored : TokenType → Bool
  | TokenType.identifier => false
  | TokenType.normal => false
  | _ => true

/-- Bytes of a keyword-table entry. -/
def strBytes (s : String) : List Nat := s.toList.map Char.toNat

/-- The keywords table (lines 126-141). -/
def keywords : List (List Nat) :=
  ["if", "else", "elif", "endif", "while", "for", "do", "break",
   "continue", "switch", "case", "default", "goto", "return", "yield",
   "await", "try", "catch", "except", "finally", "throw", "raise", "with",
   "in", "is", "function", "def", "fn", "func", "lambda", "async",
   "import", "include", "from", "as", "namespace", "using", "package",
   "module", "export", "require", "new", "delete", "malloc", "free",
   "sizeof", "typeof", "instanceof", "this", "self", "super", "base",
   "override", "virtual", "inline", "explicit", "public", "private",
   "protected", "static", "extern", "register", "volatile", "abstract",
   "final", "const", "let", "var", "auto", "and", "or", "not", "xor",
   "begin", "end", "then", "fi", "done", "until", "unless"].map strBytes

/-- The type_keywords table (lines 143-150). -/
def type_keywords : List (List Nat) :=
  ["int", "float", "double", "char", "string", "bool", "boolean", "void",
   "signed", "unsigned", "short", "long", "struct", "union", "enum",
   "typedef", "class", "interface", "object", "array", "list", "dict",
   "map", "set", "size_t", "ssize_t", "uint8_t", "uint16_t", "uint32_t",
   "uint64_t", "int8_t", "int16_t", "int32_t", "int64_t", "FILE",
   "NULL"].map strBytes

/-- The boolean_null table (lines 152-154). -/
def boolean_null : List (List Nat) :=
  ["true", "false", "True", "False", "TRUE", "FALSE", "null", "NULL",
   "nil", "None", "undefined", "NaN"].map strBytes

/-- The words classified as TOKEN_NULL rather than TOKEN_BOOLEAN in the
boolean_null hit (lines 292-297). -/
def null_words : List (List Nat) :=
  ["null", "NULL", "nil", "None", "undefined", "NaN"].map strBytes

/-- The constant-pattern scan of classify_word (lines 258-271): walks the
word, aborting (pattern false) at the first byte that is lowercase or not
uppercase/underscore/digit; has_letter records whether a letter was seen
before the abort. -/
def const_scan : List Nat → Bool → Bool × Bool
  | [], hasL => (true, hasL)
  | c :: cs, hasL =>
    if islower c || (!isupper c && !(c == 95) && !isdigit c) then
      (false, hasL)
    else
      const_scan cs (hasL || isalpha c)

/-- First byte of the following text after skipping spaces (the function
lookahead of classify_word, lines 299-313). -/
def first_nonspace : List Nat → Option Nat
  | [] => none
  | c :: cs => if isspace c then first_nonspace cs else some c

/-- Embedding of classify_word (src/third-party/md4c_ansi.c, lines
247-316).  Words of 256 bytes or more are identifiers (the temp buffer
guard); an all-uppercase/digit/underscore word with a letter and length
over 1 is a constant (the constants-table loop returns TOKEN_CONSTANT on
both hit and miss); then the type/keyword/boolean tables; then the
"identifier followed by optional whitespace and an opening parenthesis"
heuristic, which likewise returns TOKEN_FUNCTION on both builtin-table hit
and miss. -/
def classify_word (word following : List Nat) : TokenType :=
  if 256 ≤ word.length then TokenType.identifier
  else
    let cle := const_scan word false
    if cle.1 && cle.2 && decide (1 < word.length) then TokenType.constant
    else if type_keywords.contains word then TokenType.type_tok
    else if keywords.contains word then TokenType.keyword
    else if boolean_null.contains word then
      (if null_words.contains word then TokenType.null_tok
       else TokenType.boolean)
    else if first_nonspace following == some 40 then TokenType.function_tok
    else TokenType.identifier

/-- Output alphabet of the highlighter: verbatim text bytes, a color
emission of get_token_color for a token type, and an ANSI reset
emission. -/
inductive Item where
  | txt (s : List Nat)
  | color (t : TokenType)
  | reset
deriving DecidableEq

/-- The lexical state the renderer carries in MD_ANSI across
text-delivery calls: in_string (the open quote byte, 0 when outside a
string), in_comment (0 none, 1 line comment, 2 block comment),
string_escape_next, and code_content_width. -/
structure LexState where
  in_string : Nat
  in_comment : Nat
  string_escape_next : Bool
  code_content_width : Nat
deriving DecidableEq

/-- Embedding of the inner scan of the string-opening branch (lines
478-505): from the byte after the opening quote, a backslash skips two
bytes, the matching quote closes.  Returns (consumed bytes, remainder,
closed).  When a backslash is the final byte the C advances i past the
NUL-terminated copy's end by one, emitting the NUL; the embedding clamps
that one phantom byte, which no theorem below relies on. -/
def scan_string_rest (q : Nat) : List Nat → List Nat × List Nat × Bool
  | [] => ([], [], false)
  | c :: cs =>
    if c == 92 then
      match cs with
      | [] => ([c], [], false)
      | d :: ds =>
        let r := scan_string_rest q ds
        (c :: d :: r.1, r.2.1, r.2.2)
    else if c == q then ([c], cs, true)
    else
      let r := scan_string_rest q cs
      (c :: r.1, r.2.1, r.2.2)

/-- Embedding of the block-comment scan loop (lines 422-430): runs while
two bytes remain, consuming the star-slash closer when found.  Returns
(consumed bytes, remainder, closed). -/
def scan_block : List Nat → List Nat × List Nat × Bool
  | a :: b :: v =>
    if a == 42 && b == 47 then ([a, b], v, true)
    else
      let r := scan_block (b :: v)
      (a :: r.1, r.2.1, r.2.2)
  | v => ([], v, false)

/-- Generic while-p scan used by the preprocessor, number and word
branches. -/
def scan_while (p : Nat → Bool) : List Nat → List Nat × List Nat
  | [] => ([], [])
  | a :: v =>
    if p a then
      let r := scan_while p v
      (a :: r.1, r.2)
    else ([], a :: v)

/-- Embedding of one iteration of the while loop of highlight_code_line
(src/third-party/md4c_ansi.c, lines 349-599).  prev is line[i-1] (none at
the start of the call), mirroring the C lookbehind on the delivered buffer;
stop set means the branch broke out of the loop (the line-comment branch).
Branches in source order: whitespace; escaped byte inside a string; inside
a string (backslash sets the pending escape, the matching quote closes and
emits a reset, anything else is verbatim); inside a block comment (closing
star-slash emits a reset); inside a line comment (verbatim); block-comment
open (the in_comment := 2 arm is kept although unreachable: the scan loop
only ever writes 0 and in_comment is 0 on entry, so ic is always 0, and an
unterminated block comment does NOT carry state); line-comment open (colors
the rest of the line, sets in_comment := 1 and stops); preprocessor; string
open; number; operator (with two-byte pairs); word (classified only when
complete on both sides); any other byte verbatim.  The dead rest = [] arm
of the block-comment open branch (its guard needs a lookahead byte) stops
with no output. -/
structure StepRes where
  items : List Item
  stop : Bool
  prev2 : Option Nat
  rest2 : List Nat
  st2 : LexState

def hl_step (prev : Option Nat) (c : Nat) (rest : List Nat)
    (st : LexState) : StepRes :=
  if isspace c then
    ⟨[Item.txt [c]], false, some c, rest,
      { st with code_content_width := st.code_content_width + 1 }⟩
  else if st.in_string ≠ 0 ∧ st.string_escape_next then
    ⟨[Item.txt [c]], false, some c, rest,
      { st with
        string_escape_next := false
        code_content_width := st.code_content_width + 1 }⟩
  else if st.in_string ≠ 0 then
    if c == 92 then
      ⟨[Item.txt [c]], false, some c, rest,
        { st with
          string_escape_next := true
          code_content_width := st.code_content_width + 1 }⟩
    else if c == st.in_string then
      ⟨[Item.txt [c], Item.reset], false, some c, rest,
        { st with
          in_string := 0
          code_content_width := st.code_content_width + 1 }⟩
    else
      ⟨[Item.txt [c]], false, some c, rest,
        { st with code_content_width := st.code_content_width + 1 }⟩
  else if st.in_comment = 2 then
    match rest with
    | d :: ds =>
      if c == 42 && d == 47 then
        ⟨[Item.txt [c, d], Item.reset], false, some d, ds,
          { st with
            in_comment := 0
            code_content_width := st.code_content_width + 2 }⟩
      else
        ⟨[Item.txt [c]], false, some c, d :: ds,
          { st with code_content_width := st.code_content_width + 1 }⟩
    | [] =>
      ⟨[Item.txt [c]], false, some c, [],
        { st with code_content_width := st.code_content_width + 1 }⟩
  else if st.in_comment = 1 then
    ⟨[Item.txt [c]], false, some c, rest,
      { st with code_content_width := st.code_content_width + 1 }⟩
  else if c == 47 && head_is rest 42 then
    match rest with
    | d :: ds =>
      let s := scan_block ds
      let seg := c :: d :: s.1
      let ic := if s.2.2 then 0 else st.in_comment
      if ic = 0 then
        ⟨[Item.color TokenType.comment, Item.txt seg, Item.reset], false,
          seg.getLast?, s.2.1,
          { st with
            in_comment := ic
            code_content_width := st.code_content_width + seg.length }⟩
      else
        ⟨[Item.color TokenType.comment, Item.txt seg], false,
          seg.getLast?, s.2.1,
          { st with
            in_comment := 2
            code_content_width := st.code_content_width + seg.length }⟩
    | [] => ⟨[], true, none, [], st⟩
  else if (c == 47 && head_is rest 47) || (c == 35 && !prev_blank prev) ||
      (c == 45 && head_is rest 45) then
    ⟨[Item.color TokenType.comment, Item.txt (c :: rest)], true, none, [],
      { st with
        in_comment := 1
        code_content_width := st.code_content_width + (c :: rest).length }⟩
  else if c == 35 && prev_blank prev then
    let s := scan_while (fun a => !isspace a) (c :: rest)
    ⟨[Item.color TokenType.preprocessor, Item.txt s.1, Item.reset], false,
      s.1.getLast?, s.2,
      { st with code_content_width := st.code_content_width + s.1.length }⟩
  else if c = 34 ∨ c = 39 ∨ c = 96 then
    let s := scan_string_rest c rest
    let seg := c :: s.1
    let ns := if s.2.2 then 0 else c
    let st2 : LexState :=
      { st with
        in_string := ns
        string_escape_next := false
        code_content_width := st.code_content_width + seg.length }
    if s.2.2 then
      ⟨[Item.color TokenType.string_tok, Item.txt seg, Item.reset], false,
        seg.getLast?, s.2.1, st2⟩
    else
      ⟨[Item.color TokenType.string_tok, Item.txt seg], false,
        seg.getLast?, s.2.1, st2⟩
  else if is_number_start c && !prev_word prev then
    let s := scan_while is_number_char (c :: rest)
    ⟨[Item.color TokenType.number, Item.txt s.1, Item.reset], false,
      s.1.getLast?, s.2,
      { st with code_content_width := st.code_content_width + s.1.length }⟩
  else if is_operator c then
    let consumed : List Nat := match rest with
      | d :: _ => if op_pair c d then [c, d] else [c]
      | [] => [c]
    ⟨[Item.color TokenType.operator_tok, Item.txt consumed, Item.reset],
      false, consumed.getLast?, rest.drop (consumed.length - 1),
      { st with
        code_content_width := st.code_content_width + consumed.length }⟩
  else if is_word_char c then
    let s := scan_while is_word_char (c :: rest)
    let complete := !prev_word prev &&
      (match s.2 with | d :: _ => !is_word_char d | [] => true)
    let t := if complete then classify_word s.1 s.2
             else TokenType.identifier
    let st2 : LexState :=
      { st with code_content_width := st.code_content_width + s.1.length }
    if colored t then
      ⟨[Item.color t, Item.txt s.1, Item.reset], false, s.1.getLast?, s.2,
        st2⟩
    else
      ⟨[Item.txt s.1], false, s.1.getLast?, s.2, st2⟩
  else
    ⟨[Item.txt [c]], false, some c, rest,
      { st with code_content_width := st.code_content_width + 1 }⟩

def hl_go : Nat → Option Nat → List Nat → LexState → List Item × LexState
  | 0, _, _, st => ([], st)
  | _, _, [], st => ([], st)
  | fuel + 1, prev, c :: rest, st =>
    let s := hl_step prev c rest st
    if s.stop then (s.items, s.st2)
    else
      let r := hl_go fuel s.prev2 s.rest2 s.st2
      (s.items ++ r.1, r.2)

/-- One call of highlight_code_line on a delivered line segment: the output
items and the lexical state left behind for the next call.  The state is a
field of the persistent MD_ANSI renderer struct, so nothing runs between
two successive calls within one code block — the state returned here is
exactly the state the next call starts from. -/
def highlight_code_line (line : List Nat) (st : LexState) :
    List Item × LexState :=
  hl_go line.length none line st

/-- Lexical-state effect of entering MD_BLOCK_CODE in enter_block_callback
(src/third-party/md4c_ansi.c, lines 1100-1110): in_string, in_comment and
string_escape_next are zeroed (and the width counter reset). -/
def enter_code_block (st : LexState) : LexState :=
  { st with
    in_string := 0
    in_comment := 0
    string_escape_next := false
    code_content_width := 0 }

/-- Lexical-state effect of leaving MD_BLOCK_CODE in leave_block_callback
(lines 1228-1236): the same three fields are zeroed again. -/
def leave_code_block (st : LexState) : LexState :=
  { st with
    in_string := 0
    in_comment := 0
    string_escape_next := false
    code_content_width := 0 }

theorem hl_go_nil (fuel : Nat) (prev : Option Nat) (st : LexState) :
    hl_go fuel prev [] st = ([], st) := by
  cases fuel <;> rfl

theorem hl_go_cons (fuel : Nat) (prev : Option Nat) (c : Nat)
    (rest : List Nat) (st : LexState) :
    hl_go (fuel + 1) prev (c :: rest) st =
      (let s := hl_step prev c rest st
       if s.stop then (s.items, s.st2)
       else
         let r := hl_go fuel s.prev2 s.rest2 s.st2
         (s.items ++ r.1, r.2)) := rfl

theorem scan_string_rest_clean (q : Nat) :
    ∀ s1 : List Nat, (∀ c ∈ s1, c ≠ 92 ∧ c ≠ q) →
      scan_string_rest q s1 = (s1, [], false) := by
  intro s1
  induction s1 with
  | nil => intro _; rfl
  | cons c cs ih =>
    intro h
    obtain ⟨h92, hq⟩ := h c (by simp)
    have e1 : (c == 92) = false := beq_eq_false_iff_ne.mpr h92
    have e2 : (c == q) = false := beq_eq_false_iff_ne.mpr hq
    rw [scan_string_rest.eq_def]
    simp [e1, e2, ih (fun x hx => h x (by simp [hx]))]

theorem hl_step_space (prev : Option Nat) (c : Nat) (rest : List Nat)
    (st : LexState) (h : isspace c = true) :
    hl_step prev c rest st =
      ⟨[Item.txt [c]], false, some c, rest,
        { st with code_content_width := st.code_content_width + 1 }⟩ := by
  simp [hl_step, h]

theorem hl_step_in_string (prev : Option Nat) (c : Nat) (rest : List Nat)
    (st : LexState) (hsp : isspace c = false) (hne : st.in_string ≠ 0)
    (hesc : st.string_escape_next = false) (h92 : (c == 92) = false) :
    hl_step prev c rest st =
      (if c == st.in_string then
        ⟨[Item.txt [c], Item.reset], false, some c, rest,
          { st with
            in_string := 0
            code_content_width := st.code_content_width + 1 }⟩
      else
        ⟨[Item.txt [c]], false, some c, rest,
          { st with code_content_width := st.code_content_width + 1 }⟩) := by
  simp [hl_step, hsp, hne, hesc, h92]

theorem hl_step_string_open (prev : Option Nat) (q : Nat) (rest : List Nat)
    (st : LexState) (hq : q = 34 ∨ q = 39 ∨ q = 96)
    (h0 : st.in_string = 0) (hc : st.in_comment = 0) :
    hl_step prev q rest st =
      (let s := scan_string_rest q rest
       let st2 : LexState :=
         { st with
           in_string := if s.2.2 then 0 else q
           string_escape_next := false
           code_content_width := st.code_content_width + (s.1.length + 1) }
       if s.2.2 then
         ⟨[Item.color TokenType.string_tok, Item.txt (q :: s.1), Item.reset],
           false, (q :: s.1).getLast?, s.2.1, st2⟩
       else
         ⟨[Item.color TokenType.string_tok, Item.txt (q :: s.1)], false,
           (q :: s.1).getLast?, s.2.1, st2⟩) := by
  rcases hq with rfl | rfl | rfl <;>
    simp [hl_step, h0, hc, isspace, head_is, prev_blank, is_number_start,
      isdigit, is_operator, operator_codes, is_word_char, isalnum, islower,
      isupper]

theorem hl_open_string (q : Nat) (hq : q = 34 ∨ q = 39 ∨ q = 96)
    (s1 : List Nat) (st : LexState)
    (h0 : st.in_string = 0) (hc : st.in_comment = 0)
    (hs1 : ∀ c ∈ s1, c ≠ 92 ∧ c ≠ q) :
    highlight_code_line (q :: s1) st =
      ([Item.color TokenType.string_tok, Item.txt (q :: s1)],
       { st with
         in_string := q
         string_escape_next := false
         code_content_width := st.code_content_width + (s1.length + 1) }) := by
  have hscan := scan_string_rest_clean q s1 hs1
  have hstep := hl_step_string_open none q s1 st hq h0 hc
  rw [hscan] at hstep
  simp only at hstep
  simp only [highlight_code_line, List.length_cons, hl_go, hstep]
  simp [hl_go_nil]

theorem hl_string_cont (q : Nat) (hq : q = 34 ∨ q = 39 ∨ q = 96) :
    ∀ (s2 : List Nat) (prev : Option Nat) (st : LexState),
      st.in_string = q → st.string_escape_next = false →
      (∀ c ∈ s2, c ≠ 92 ∧ c ≠ q) →
      hl_go (s2.length + 1) prev (s2 ++ [q]) st =
        (s2.map (fun c => Item.txt [c]) ++ [Item.txt [q], Item.reset],
         { st with
           in_string := 0
           code_content_width := st.code_content_width + (s2.length + 1) }) := by
  have hqz : q ≠ 0 := by rcases hq with rfl | rfl | rfl <;> decide
  have hq92 : (q == 92) = false := by
    rcases hq with rfl | rfl | rfl <;> decide
  have hnsq : isspace q = false := by
    rcases hq with rfl | rfl | rfl <;> decide
  intro s2
  induction s2 with
  | nil =>
    intro prev st h0 hesc _
    have hs0 : st.in_string ≠ 0 := by rw [h0]; exact hqz
    have eqq : (q == st.in_string) = true := by
      rw [h0]
      exact beq_self_eq_true q
    have hstep := hl_step_in_string prev q [] st hnsq hs0 hesc hq92
    rw [eqq] at hstep
    simp only [if_true] at hstep
    simp only [List.nil_append, List.length_nil, hl_go, hstep]
    simp [hl_go_nil]
  | cons c s2' ih =>
    intro prev st h0 hesc hclean
    obtain ⟨h92, hqne⟩ := hclean c (by simp)
    have e1 : (c == 92) = false := beq_eq_false_iff_ne.mpr h92
    have e2 : (c == st.in_string) = false := by
      rw [h0]; exact beq_eq_false_iff_ne.mpr hqne
    have hs0 : st.in_string ≠ 0 := by rw [h0]; exact hqz
    have hrec := ih (some c)
      { st with code_content_width := st.code_content_width + 1 }
      (by simp [h0]) (by simp [hesc])
      (fun x hx => hclean x (by simp [hx]))
    have hcons : (c :: s2') ++ [q] = c :: (s2' ++ [q]) := rfl
    by_cases hsp : isspace c
    · have hstep := hl_step_space prev c (s2' ++ [q]) st hsp
      rw [List.length_cons, hcons, hl_go_cons, hstep]
      simp only [hrec]
      simp [LexState.mk.injEq]
      try omega
    · have hstep := hl_step_in_string prev c (s2' ++ [q]) st
        (Bool.not_eq_true _ ▸ (by simpa using hsp)) hs0 hesc e1
      rw [e2] at hstep
      simp only [Bool.false_eq_true, if_false] at hstep
      rw [List.length_cons, hcons, hl_go_cons, hstep]
      simp only [hrec]
      simp [LexState.mk.injEq]
      try omega

/-- Claim C7: within one code block the lexer state (the in_string quote
byte, the in_comment mode, and the pending string-escape flag) lives in
the persistent renderer struct, so it carries from one text-delivery call
of highlight_code_line into the next — the state a call returns is
literally the state the next call starts from — and the three fields are
initialised exactly by the MD_BLOCK_CODE enter and leave callbacks.
Consequently a string literal split across two chunk deliveries is colored
as ONE continuous string token: the first chunk (which opens the literal
with quote q and does not close it) emits the string color, the whole
chunk as verbatim text and NO reset at the chunk end, leaving
in_string = q; the second chunk, started in that state, emits its bytes as
plain verbatim continuation with no color change at the boundary and a
single reset immediately after the closing quote, returning
in_string = 0. -/
theorem C7_lexer_state_persistence (st : LexState) (q : Nat)
    (s1 s2 : List Nat) (hq : q = 34 ∨ q = 39 ∨ q = 96)
    (h0 : st.in_string = 0) (hc : st.in_comment = 0)
    (hs1 : ∀ c ∈ s1, c ≠ 92 ∧ c ≠ q) (hs2 : ∀ c ∈ s2, c ≠ 92 ∧ c ≠ q) :
    ((enter_code_block st).in_string = 0 ∧
      (enter_code_block st).in_comment = 0 ∧
      (enter_code_block st).string_escape_next = false ∧
      (leave_code_block st).in_string = 0 ∧
      (leave_code_block st).in_comment = 0 ∧
      (leave_code_block st).string_escape_next = false) ∧
    ((highlight_code_line (q :: s1) st).1 =
        [Item.color TokenType.string_tok, Item.txt (q :: s1)] ∧
      (highlight_code_line (q :: s1) st).2.in_string = q ∧
      (highlight_code_line (q :: s1) st).2.string_escape_next = false) ∧
    ((highlight_code_line (s2 ++ [q])
          ((highlight_code_line (q :: s1) st).2)).1 =
        s2.map (fun c => Item.txt [c]) ++ [Item.txt [q], Item.reset] ∧
      (highlight_code_line (s2 ++ [q])
          ((highlight_code_line (q :: s1) st).2)).2.in_string = 0) := by
  have h1 := hl_open_string q hq s1 st h0 hc hs1
  have h2 := hl_string_cont q hq s2 none
    ((highlight_code_line (q :: s1) st).2)
    (by simp [h1]) (by simp [h1]) hs2
  have hlen : (s2 ++ [q]).length = s2.length + 1 := by simp
  refine ⟨⟨rfl, rfl, rfl, rfl, rfl, rfl⟩,
    ⟨by simp [h1], by simp [h1], by simp [h1]⟩, ?_, ?_⟩
  · show (hl_go (s2 ++ [q]).length none (s2 ++ [q])
        ((highlight_code_line (q :: s1) st).2)).1 = _
    rw [hlen, h2]
  · show (hl_go (s2 ++ [q]).length none (s2 ++ [q])
        ((highlight_code_line (q :: s1) st).2)).2.in_string = 0
    rw [hlen, h2]

/-- Witness for C7_lexer_state_persistence: the literal "h i" (bytes
104/105) split as the chunks quote-h and i-quote. -/
theorem C7_lexer_state_persistence_witness :
    (((34 : Nat) = 34 ∨ (34 : Nat) = 39 ∨ (34 : Nat) = 96) ∧
      (⟨0, 0, false, 0⟩ : LexState).in_string = 0 ∧
      (⟨0, 0, false, 0⟩ : LexState).in_comment = 0 ∧
      (∀ c ∈ [104], c ≠ 92 ∧ c ≠ 34) ∧
      (∀ c ∈ [105], c ≠ 92 ∧ c ≠ 34)) ∧
    (highlight_code_line [34, 104] (⟨0, 0, false, 0⟩ : LexState)).1 =
      [Item.color TokenType.string_tok, Item.txt [34, 104]] ∧
    (highlight_code_line ([105] ++ [34])
        ((highlight_code_line [34, 104] (⟨0, 0, false, 0⟩ : LexState)).2)).1 =
      [105].map (fun c => Item.txt [c]) ++ [Item.txt [34], Item.reset] :=
  ⟨⟨Or.inl rfl, rfl, rfl, by decide, by decide⟩,
   (C7_lexer_state_persistence ⟨0, 0, false, 0⟩ 34 [104] [105] (Or.inl rfl)
     rfl rfl (by decide) (by decide)).2.1.1,
   (C7_lexer_state_persistence ⟨0, 0, false, 0⟩ 34 [104] [105] (Or.inl rfl)
     rfl rfl (by decide) (by decide)).2.2.1⟩

end Hl
